import Mathlib

/-!
Verification development for the asynchronous child-process supervision
subsystem of the repository (core/system/Process.hpp and collaborators),
together with the session launch-profile JSON round-trip
(core/r_util/RSessionLaunchProfile.hpp) and the Shiny viewer module
(session/modules/SessionShinyViewer.cpp).

The supervisor engine itself (the implementation behind the declarations in
Process.hpp) is not part of the source excerpt; its behavior is modelled
from the specification's state machine (states Created/Starting/Running/
Draining/Exited, the poll step, the error and termination paths) and from
the contract comments in Process.hpp.  The Shiny viewer module is embedded
directly from its source.
-/

namespace Proc

/-- Pseudoterminal options, from `struct Pseudoterminal` in Process.hpp:
a pair of column and row counts. -/
structure Pseudoterminal where
  cols : Int
  rows : Int
deriving DecidableEq, Repr

/-- One delivered callback event for a single child handle.  `continued`
records the boolean returned by the `onContinue` handler; `exited` carries
the exit status passed to `onExit`. -/
inductive Event where
  | started
  | stdoutData (s : String)
  | stderrData (s : String)
  | continued (res : Bool)
  | errored
  | exited (status : Int)
deriving DecidableEq, Repr

/-- Modelled from the spec: the output the OS makes available to one poll
step of a running child — an optional chunk of standard output and an
optional chunk of standard error (Process.hpp declares only the interface;
the reading loop is not in the excerpt). -/
structure StepData where
  stdoutChunk : Option String
  stderrChunk : Option String
deriving DecidableEq, Repr

/-- Modelled from the spec: how the child's streams end once all scripted
output has been read — either the process exits with a status code, or an
I/O error occurs while reading the streams (after which no further stream
data is produced, matching the spec's ordering guarantee that `onError`
follows all output delivery); `laterCode` is the status the OS eventually
reports when an error handler is installed and the child is left to end on
its own. -/
inductive Outcome where
  | exitCode (c : Int)
  | ioError (laterCode : Int)
deriving DecidableEq, Repr

/-- The optional-callback bag of `struct ProcessCallbacks` (Process.hpp),
restricted to the presence information that influences control flow:
whether `onContinue` is set and the value it returns at each invocation,
and whether `onError` is set (absence triggers the default log-and-terminate
policy). -/
structure ProcessCallbacks where
  hasOnContinue : Bool
  onContinueResults : List Bool
  hasOnError : Bool
deriving DecidableEq, Repr

/-- Lifecycle phase of a live handle, from the spec's state machine.
`Created` exists only transiently inside a run call and `Draining` only
inside a poll step, so the registry-visible phases are: `starting` (spawn
issued, first poll pending), `running` (normal operation), and
`erroredWaiting` (an I/O error was delivered to an installed `onError`
handler; the handle awaits exit confirmation with the given status). -/
inductive HPhase where
  | starting
  | running
  | erroredWaiting (code : Int)
deriving DecidableEq, Repr

/-- Modelled from the spec: a Child Process Handle — one live child's
identity, lifecycle phase, remaining scripted stream activity, callback
bag, `onContinue` invocation count, pending-termination flag (set by
`terminate()`; honored on a subsequent poll), and pseudoterminal mode
(from `ProcessOptions::pseudoterminal`). -/
structure Handle where
  hid : Nat
  phase : HPhase
  steps : List StepData
  outcome : Outcome
  cb : ProcessCallbacks
  contCount : Nat
  terminated : Bool
  pty : Option Pseudoterminal
deriving DecidableEq, Repr

/-- Errors returned synchronously from `ProcessOperations` calls. -/
inductive OpError where
  | unsupportedOperation
deriving DecidableEq, Repr

/-- `ProcessOperations::ptySetSize` (Process.hpp): valid only if the process
was started with a pseudoterminal; otherwise fails with an unsupported
operation error.  On success the terminal is resized. -/
def Handle.ptySetSize (h : Handle) (cols rows : Int) : Except OpError Handle :=
  match h.pty with
  | some _ => .ok { h with pty := some ⟨cols, rows⟩ }
  | none => .error .unsupportedOperation

/-- `ProcessOperations::ptyInterrupt` (Process.hpp): valid only in pty mode;
sends an interrupt to the pty's foreground process group. -/
def Handle.ptyInterrupt (h : Handle) : Except OpError Unit :=
  match h.pty with
  | some _ => .ok ()
  | none => .error .unsupportedOperation

/-- The output events of one poll step: any available stdout chunk, then any
available stderr chunk (cross-stream interleaving is unspecified in the
spec; the model fixes one order, preserving per-stream order). -/
def stepOutputEvents (s : StepData) : List Event :=
  (match s.stdoutChunk with
   | some d => [Event.stdoutData d]
   | none => []) ++
  (match s.stderrChunk with
   | some d => [Event.stderrData d]
   | none => [])

/-- Modelled from the spec: one poll step of a single handle (spec, §4.2).
Returns the events delivered for this handle during the step, and the
handle's successor state (`none` once `onExit` has fired and the handle is
to be removed from the registry).

* A handle with a pending termination request exits with status 15 on this
  poll (the spec: termination is confirmed on a subsequent poll, exit
  status 15 for supervisor-initiated termination); a handle terminated
  before its first poll still fires `onStarted` first.
* `starting`: the first poll fires `onStarted` exactly once and moves to
  `running`.
* `running` with stream data left: delivers the step's output, then invokes
  `onContinue` when installed; an `onContinue` result of `false` requests
  termination internally.
* `running` with streams exhausted and a normal exit: invokes `onContinue`
  when installed, then detects the exit and fires `onExit`.
* `running` with an I/O error on the streams: with an `onError` handler the
  error is delivered and the handle awaits exit; without one the default
  policy logs the error and calls `terminate()` (no callback fires). -/
def stepHandle (h : Handle) : List Event × Option Handle :=
  if h.terminated then
    match h.phase with
    | .starting => ([Event.started, Event.exited 15], none)
    | _ => ([Event.exited 15], none)
  else
    match h.phase with
    | .starting => ([Event.started], some { h with phase := .running })
    | .erroredWaiting c => ([Event.exited c], none)
    | .running =>
      match h.steps with
      | s :: rest =>
        if h.cb.hasOnContinue then
          let res := h.cb.onContinueResults.getD h.contCount true
          (stepOutputEvents s ++ [Event.continued res],
           some { h with steps := rest, contCount := h.contCount + 1,
                         terminated := !res })
        else
          (stepOutputEvents s, some { h with steps := rest })
      | [] =>
        match h.outcome with
        | .exitCode c =>
          if h.cb.hasOnContinue then
            let res := h.cb.onContinueResults.getD h.contCount true
            ([Event.continued res, Event.exited c], none)
          else
            ([Event.exited c], none)
        | .ioError c =>
          if h.cb.hasOnError then
            ([Event.errored], some { h with phase := .erroredWaiting c })
          else
            ([], some { h with terminated := true })

/-- Modelled from the spec: the configuration of one run call — the child's
scripted stream behavior and outcome, the caller's callback bag, and the
pseudoterminal request from `ProcessOptions`. -/
structure ChildConfig where
  steps : List StepData
  outcome : Outcome
  cb : ProcessCallbacks
  pty : Option Pseudoterminal
deriving DecidableEq, Repr

/-- The result of OS-level process creation, an input to a run call (the
spawn syscalls are outside the excerpt): creation either succeeds or fails
with a launch error message. -/
inductive LaunchResult where
  | ok
  | failed (msg : String)
deriving DecidableEq, Repr

/-- The `ProcessSupervisor` (Process.hpp): the insertion-order registry of
live child handles, plus the next fresh handle identity. -/
structure ProcessSupervisor where
  registry : List Handle
  nextId : Nat
deriving DecidableEq, Repr

/-- A supervisor with no children, as constructed by `ProcessSupervisor()`. -/
def emptySupervisor : ProcessSupervisor := { registry := [], nextId := 0 }

/-- A freshly registered handle for one successful run call: phase
`starting`, no termination requested, no `onContinue` invocations yet. -/
def mkHandle (hid : Nat) (cfg : ChildConfig) : Handle :=
  { hid := hid, phase := .starting, steps := cfg.steps, outcome := cfg.outcome,
    cb := cfg.cb, contCount := 0, terminated := false, pty := cfg.pty }

/-- Registration of a successfully created child: a new handle is appended
to the registry (insertion order) under a fresh identity. -/
def registerChild (sup : ProcessSupervisor) (cfg : ChildConfig) :
    ProcessSupervisor :=
  { registry := sup.registry ++ [mkHandle sup.nextId cfg],
    nextId := sup.nextId + 1 }

/-- Modelled from the spec: the common core of
`ProcessSupervisor::runProgram` / `runCommand` — if OS process creation
fails the launch error is returned synchronously and nothing is registered;
otherwise the new handle is registered and the call returns at once. -/
def ProcessSupervisor.runChild (sup : ProcessSupervisor) (cfg : ChildConfig)
    (osLaunch : LaunchResult) : Except String ProcessSupervisor :=
  match osLaunch with
  | .ok => .ok (registerChild sup cfg)
  | .failed msg => .error msg

/-- `ProcessSupervisor::runProgram` (Process.hpp): run a child
asynchronously by direct execution of `executable` with `args`. -/
def ProcessSupervisor.runProgram (sup : ProcessSupervisor)
    (executable : String) (args : List String) (cfg : ChildConfig)
    (osLaunch : LaunchResult) : Except String ProcessSupervisor :=
  sup.runChild cfg osLaunch

/-- `ProcessSupervisor::runCommand` (Process.hpp): same as `runProgram` but
the command string is passed to a command shell. -/
def ProcessSupervisor.runCommand (sup : ProcessSupervisor) (command : String)
    (cfg : ChildConfig) (osLaunch : LaunchResult) :
    Except String ProcessSupervisor :=
  sup.runChild cfg osLaunch

/-- One poll pass over a list of handles in registry order: the events each
handle delivers, tagged with its identity, and the handles that remain. -/
def pollHandles : List Handle → List (Nat × Event) × List Handle
  | [] => ([], [])
  | h :: hs =>
    let pr := stepHandle h
    let rest := pollHandles hs
    (pr.1.map (fun e => (h.hid, e)) ++ rest.1,
     match pr.2 with
     | some h' => h' :: rest.2
     | none => rest.2)

/-- `ProcessSupervisor::poll` (Process.hpp): advances every registered
handle by one step in registry order; the returned boolean is true iff
there are still children being supervised after the poll.  Also returns the
new supervisor state and the events delivered during the step. -/
def ProcessSupervisor.poll (sup : ProcessSupervisor) :
    Bool × ProcessSupervisor × List (Nat × Event) :=
  let pr := pollHandles sup.registry
  (!pr.2.isEmpty, { sup with registry := pr.2 }, pr.1)

/-- `ProcessSupervisor::hasRunningChildren` (Process.hpp): true iff the
registry is non-empty.  A pure query: in this embedding it is a function of
the supervisor value and can change no state. -/
def ProcessSupervisor.hasRunningChildren (sup : ProcessSupervisor) : Bool :=
  !sup.registry.isEmpty

/-- A termination request on one handle (`ProcessOperations::terminate`):
asynchronous — only the pending flag is set; the exit is confirmed on a
subsequent poll. -/
def Handle.requestTerminate (h : Handle) : Handle := { h with terminated := true }

/-- `ProcessSupervisor::terminateAll` (Process.hpp): invokes `terminate()`
on every registered handle; does not wait for exits. -/
def ProcessSupervisor.terminateAll (sup : ProcessSupervisor) :
    ProcessSupervisor :=
  { sup with registry := sup.registry.map Handle.requestTerminate }

/-- A termination request addressed to a single registered handle, as
issued through `ProcessOperations::terminate` from a callback. -/
def ProcessSupervisor.terminateOne (sup : ProcessSupervisor) (hid : Nat) :
    ProcessSupervisor :=
  { sup with
    registry := sup.registry.map fun h =>
      if h.hid = hid then h.requestTerminate else h }

/-- The operations a driver may perform on a supervisor, used to quantify
over arbitrary usage histories: a successful run call, a run call whose OS
process creation failed, a poll step, `terminateAll`, and a `terminate()`
request on one handle. -/
inductive SupOp where
  | runOk (cfg : ChildConfig)
  | runFailed (msg : String)
  | pollOp
  | terminateAllOp
  | terminateOneOp (hid : Nat)
deriving DecidableEq, Repr

/-- Effect of one driver operation: the next supervisor state and the
callback events delivered during the operation.  A failed run call leaves
the supervisor untouched and delivers nothing. -/
def execOp (sup : ProcessSupervisor) : SupOp → ProcessSupervisor × List (Nat × Event)
  | .runOk cfg => (registerChild sup cfg, [])
  | .runFailed _ => (sup, [])
  | .pollOp => ((sup.poll).2.1, (sup.poll).2.2)
  | .terminateAllOp => (sup.terminateAll, [])
  | .terminateOneOp hid => (sup.terminateOne hid, [])

/-- Effect of a sequence of driver operations, accumulating the delivered
event trace. -/
def execOps (sup : ProcessSupervisor) : List SupOp → ProcessSupervisor × List (Nat × Event)
  | [] => (sup, [])
  | op :: ops =>
    let pr := execOp sup op
    let rest := execOps pr.1 ops
    (rest.1, pr.2 ++ rest.2)

/-- The events of the trace delivered to the callbacks of handle `hid`, in
delivery order. -/
def eventsOf (hid : Nat) (tr : List (Nat × Event)) : List Event :=
  (tr.filter (fun p => p.1 == hid)).map Prod.snd

/-- The events that may occur between `onStarted` and the error/exit tail:
stream output deliveries and `onContinue` invocations. -/
def isMidEvent : Event → Bool
  | .stdoutData _ => true
  | .stderrData _ => true
  | .continued _ => true
  | _ => false

/-- Shape of the trace of a handle in normal operation: `onStarted` first,
followed only by output and `onContinue` events. -/
def RunningShape (es : List Event) : Prop :=
  ∃ body, es = Event.started :: body ∧ ∀ e ∈ body, isMidEvent e = true

/-- Shape of the trace of a handle whose `onError` handler has been
invoked: `onStarted`, output and `onContinue` events, then `onError`. -/
def ErroredShape (es : List Event) : Prop :=
  ∃ body, es = Event.started :: (body ++ [Event.errored]) ∧
    ∀ e ∈ body, isMidEvent e = true

/-- Shape of the complete trace of a finished handle: `onStarted` exactly
once and first, then output and `onContinue` events, then at most one
`onError`, then `onExit` exactly once and last. -/
def CompleteShape (es : List Event) : Prop :=
  ∃ body err c, es = Event.started :: (body ++ err ++ [Event.exited c]) ∧
    (∀ e ∈ body, isMidEvent e = true) ∧
    (err = [] ∨ err = [Event.errored])

/-- The trace shape maintained by each registry-resident handle, by phase. -/
def HandleShape (h : Handle) (es : List Event) : Prop :=
  match h.phase with
  | .starting => es = []
  | .running => RunningShape es
  | .erroredWaiting _ => ErroredShape es

lemma stepOutputEvents_mid (s : StepData) :
    ∀ e ∈ stepOutputEvents s, isMidEvent e = true := by
  intro e he
  rcases s with ⟨o, r⟩
  cases o <;> cases r <;> simp [stepOutputEvents] at he
  · subst he; rfl
  · subst he; rfl
  · rcases he with rfl | rfl <;> rfl

lemma runningShape_append_mid {es evs : List Event} (h : RunningShape es)
    (hm : ∀ e ∈ evs, isMidEvent e = true) : RunningShape (es ++ evs) := by
  obtain ⟨body, rfl, hb⟩ := h
  refine ⟨body ++ evs, by simp, ?_⟩
  intro e he
  rcases List.mem_append.mp he with h1 | h2
  · exact hb e h1
  · exact hm e h2

lemma runningShape_complete {es : List Event} (h : RunningShape es)
    (evs : List Event) (hm : ∀ e ∈ evs, isMidEvent e = true) (c : Int) :
    CompleteShape (es ++ (evs ++ [Event.exited c])) := by
  obtain ⟨body, rfl, hb⟩ := h
  refine ⟨body ++ evs, [], c, by simp, ?_, Or.inl rfl⟩
  intro e he
  rcases List.mem_append.mp he with h1 | h2
  · exact hb e h1
  · exact hm e h2

lemma runningShape_errored {es : List Event} (h : RunningShape es) :
    ErroredShape (es ++ [Event.errored]) := by
  obtain ⟨body, rfl, hb⟩ := h
  exact ⟨body, by simp, hb⟩

lemma erroredShape_complete {es : List Event} (h : ErroredShape es) (c : Int) :
    CompleteShape (es ++ [Event.exited c]) := by
  obtain ⟨body, rfl, hb⟩ := h
  exact ⟨body, [Event.errored], c, by simp, hb, Or.inr rfl⟩

lemma runningShape_no_started_tail {es : List Event} (h : RunningShape es) :
    es ≠ [] := by
  obtain ⟨body, rfl, -⟩ := h
  simp

/-- A trace of `RunningShape` contains no `exited` event. -/
lemma runningShape_no_exit {es : List Event} (h : RunningShape es) (c : Int) :
    Event.exited c ∉ es := by
  obtain ⟨body, rfl, hb⟩ := h
  intro hmem
  rcases List.mem_cons.mp hmem with h1 | h2
  · exact Event.noConfusion h1
  · have := hb _ h2
    simp [isMidEvent] at this

/-- A trace of `ErroredShape` contains no `exited` event. -/
lemma erroredShape_no_exit {es : List Event} (h : ErroredShape es) (c : Int) :
    Event.exited c ∉ es := by
  obtain ⟨body, rfl, hb⟩ := h
  intro hmem
  rcases List.mem_cons.mp hmem with h1 | h2
  · exact Event.noConfusion h1
  · rcases List.mem_append.mp h2 with h3 | h4
    · have := hb _ h3
      simp [isMidEvent] at this
    · simp at h4

/-- A registry-resident handle's trace contains no `exited` event. -/
lemma handleShape_no_exit {h : Handle} {es : List Event}
    (hs : HandleShape h es) (c : Int) : Event.exited c ∉ es := by
  unfold HandleShape at hs
  cases hph : h.phase <;> rw [hph] at hs
  · simp [hs]
  · exact runningShape_no_exit hs c
  · exact erroredShape_no_exit hs c

/-- A complete trace contains an `exited` event. -/
lemma completeShape_has_exit {es : List Event} (h : CompleteShape es) :
    ∃ c, Event.exited c ∈ es := by
  obtain ⟨body, err, c, rfl, -, -⟩ := h
  exact ⟨c, by simp⟩

/-- Key step lemma: one poll step of a handle preserves the per-handle
trace shape, and a handle leaves the registry exactly with a complete
trace. -/
lemma stepHandle_shape (h : Handle) (es : List Event)
    (hs : HandleShape h es) :
    (∀ h', (stepHandle h).2 = some h' →
       h'.hid = h.hid ∧ HandleShape h' (es ++ (stepHandle h).1)) ∧
    ((stepHandle h).2 = none → CompleteShape (es ++ (stepHandle h).1)) := by
  obtain ⟨hid, phase, steps, outcome, cb, cnt, term, pty⟩ := h
  obtain ⟨hc, hcr, herr⟩ := cb
  cases term
  · cases phase
    · -- starting, no pending termination: onStarted fires, move to running
      simp only [HandleShape] at hs
      subst hs
      refine ⟨?_, ?_⟩
      · intro h' hh'
        simp [stepHandle] at hh'
        subst hh'
        exact ⟨rfl, ⟨[], by simp [stepHandle], by simp⟩⟩
      · intro hn
        simp [stepHandle] at hn
    · -- running, no pending termination
      simp only [HandleShape] at hs
      cases steps
      · cases outcome
        · -- streams exhausted, normal exit
          cases hc
          · refine ⟨?_, ?_⟩
            · intro h' hh'
              simp [stepHandle] at hh'
            · intro _
              simpa [stepHandle] using runningShape_complete hs [] (by simp) _
          · refine ⟨?_, ?_⟩
            · intro h' hh'
              simp [stepHandle] at hh'
            · intro _
              simpa [stepHandle] using
                runningShape_complete hs
                  [Event.continued (hcr.getD cnt true)] (by simp [isMidEvent]) _
        · -- I/O error on the streams
          cases herr
          · -- no onError handler: default policy terminates, no event
            refine ⟨?_, ?_⟩
            · intro h' hh'
              simp [stepHandle] at hh'
              subst hh'
              refine ⟨rfl, ?_⟩
              simpa [stepHandle, HandleShape] using hs
            · intro hn
              simp [stepHandle] at hn
          · -- handler present: onError delivered, handle awaits exit
            refine ⟨?_, ?_⟩
            · intro h' hh'
              simp [stepHandle] at hh'
              subst hh'
              refine ⟨rfl, ?_⟩
              simpa [stepHandle, HandleShape] using runningShape_errored hs
            · intro hn
              simp [stepHandle] at hn
      · -- stream data remains
        rename_i s rest
        cases hc
        · refine ⟨?_, ?_⟩
          · intro h' hh'
            simp [stepHandle] at hh'
            subst hh'
            refine ⟨rfl, ?_⟩
            simpa [stepHandle, HandleShape] using
              runningShape_append_mid hs (stepOutputEvents_mid _)
          · intro hn
            simp [stepHandle] at hn
        · refine ⟨?_, ?_⟩
          · intro h' hh'
            simp [stepHandle] at hh'
            subst hh'
            refine ⟨rfl, ?_⟩
            have hm : ∀ e ∈ stepOutputEvents s ++
                [Event.continued (hcr.getD cnt true)], isMidEvent e = true := by
              intro e he
              rcases List.mem_append.mp he with h1 | h2
              · exact stepOutputEvents_mid s e h1
              · simp at h2
                simp [h2, isMidEvent]
            simpa [stepHandle, HandleShape] using runningShape_append_mid hs hm
          · intro hn
            simp [stepHandle] at hn
    · -- erroredWaiting, no pending termination: exit confirmed
      simp only [HandleShape] at hs
      refine ⟨?_, ?_⟩
      · intro h' hh'
        simp [stepHandle] at hh'
      · intro _
        simpa [stepHandle] using erroredShape_complete hs _
  · -- pending termination: exit with status 15 on this poll
    cases phase
    · simp only [HandleShape] at hs
      subst hs
      refine ⟨?_, ?_⟩
      · intro h' hh'
        simp [stepHandle] at hh'
      · intro _
        refine ⟨[], [], 15, ?_, by simp, Or.inl rfl⟩
        simp [stepHandle]
    · simp only [HandleShape] at hs
      refine ⟨?_, ?_⟩
      · intro h' hh'
        simp [stepHandle] at hh'
      · intro _
        simpa [stepHandle] using runningShape_complete hs [] (by simp) 15
    · simp only [HandleShape] at hs
      refine ⟨?_, ?_⟩
      · intro h' hh'
        simp [stepHandle] at hh'
      · intro _
        simpa [stepHandle] using erroredShape_complete hs 15

lemma eventsOf_append (hid : Nat) (a b : List (Nat × Event)) :
    eventsOf hid (a ++ b) = eventsOf hid a ++ eventsOf hid b := by
  simp [eventsOf, List.filter_append]

lemma eventsOf_tagged_self (hid : Nat) (evs : List Event) :
    eventsOf hid (evs.map fun e => (hid, e)) = evs := by
  induction evs with
  | nil => rfl
  | cons e t ih => simpa [eventsOf] using ih

lemma eventsOf_tagged_other {hid i : Nat} (hne : i ≠ hid) (evs : List Event) :
    eventsOf hid (evs.map fun e => (i, e)) = [] := by
  induction evs with
  | nil => rfl
  | cons e t ih => simp [eventsOf, hne]

/-- A surviving handle keeps its identity across a poll step. -/
lemma stepHandle_hid {h h' : Handle} (hh : (stepHandle h).2 = some h') :
    h'.hid = h.hid := by
  obtain ⟨hid, phase, steps, outcome, cb, cnt, term, pty⟩ := h
  obtain ⟨hc, hcr, herr⟩ := cb
  cases term <;> cases phase <;> cases steps <;> cases outcome <;>
    cases hc <;> cases herr <;> simp [stepHandle] at hh <;> simp [← hh]

/-- The first component of a poll pass over a handle list. -/
lemma pollHandles_cons_events (h : Handle) (t : List Handle) :
    (pollHandles (h :: t)).1 =
      (stepHandle h).1.map (fun e => (h.hid, e)) ++ (pollHandles t).1 := rfl

/-- The second component of a poll pass over a handle list. -/
lemma pollHandles_cons_registry (h : Handle) (t : List Handle) :
    (pollHandles (h :: t)).2 =
      (match (stepHandle h).2 with
       | some h' => h' :: (pollHandles t).2
       | none => (pollHandles t).2) := rfl

/-- A poll pass emits events only for the handles that were polled. -/
lemma pollHandles_events_not_mem :
    ∀ (hs : List Handle) (hid : Nat), (∀ h ∈ hs, h.hid ≠ hid) →
      eventsOf hid (pollHandles hs).1 = []
  | [], _, _ => rfl
  | h :: t, hid, hno => by
    rw [pollHandles_cons_events, eventsOf_append,
      eventsOf_tagged_other (hno h (by simp)),
      pollHandles_events_not_mem t hid (fun x hx => hno x (by simp [hx]))]
    rfl

/-- The identities surviving a poll pass form a sublist of the polled
identities (so registry order and distinctness are preserved). -/
lemma pollHandles_hid_sublist :
    ∀ hs : List Handle,
      ((pollHandles hs).2.map Handle.hid).Sublist (hs.map Handle.hid)
  | [] => by simp [pollHandles]
  | h :: t => by
    rw [pollHandles_cons_registry]
    cases hr : (stepHandle h).2 with
    | none =>
      exact (pollHandles_hid_sublist t).trans (List.sublist_cons_self _ _)
    | some h' =>
      simpa [stepHandle_hid hr] using
        List.Sublist.cons₂ h.hid (pollHandles_hid_sublist t)

/-- Core poll invariant: a poll pass over handles with distinct identities
and shape-respecting traces yields surviving handles with shape-respecting
traces, and any handle it removes ends with a complete trace. -/
lemma pollHandles_inv :
    ∀ (hs : List Handle) (tr : List (Nat × Event)),
      (hs.map Handle.hid).Nodup →
      (∀ h ∈ hs, HandleShape h (eventsOf h.hid tr)) →
      (∀ h' ∈ (pollHandles hs).2,
         HandleShape h' (eventsOf h'.hid (tr ++ (pollHandles hs).1))) ∧
      (∀ h ∈ hs, (∀ h' ∈ (pollHandles hs).2, h'.hid ≠ h.hid) →
         CompleteShape (eventsOf h.hid (tr ++ (pollHandles hs).1)))
  | [], tr, _, _ => by simp [pollHandles]
  | h :: t, tr, hnd, hshape => by
    have hnd' : (∀ x ∈ t, ¬x.hid = h.hid) ∧ (t.map Handle.hid).Nodup := by
      simpa using hnd
    have hnottail : ∀ x ∈ t, x.hid ≠ h.hid := hnd'.1
    have htailno : eventsOf h.hid (pollHandles t).1 =
        [] := pollHandles_events_not_mem t h.hid hnottail
    -- the head handle's step
    have hstep := stepHandle_shape h (eventsOf h.hid tr) (hshape h (by simp))
    -- the tail processed against the trace extended by the head's events
    have htail := pollHandles_inv t
      (tr ++ (stepHandle h).1.map (fun e => (h.hid, e)))
      hnd'.2
      (by
        intro x hx
        rw [eventsOf_append, eventsOf_tagged_other (Ne.symm (hnottail x hx)),
          List.append_nil]
        exact hshape x (List.mem_cons_of_mem h hx))
    have hassoc :
        tr ++ ((stepHandle h).1.map (fun e => (h.hid, e)) ++ (pollHandles t).1)
          = (tr ++ (stepHandle h).1.map (fun e => (h.hid, e))) ++
              (pollHandles t).1 := (List.append_assoc _ _ _).symm
    have hheadproj :
        eventsOf h.hid ((tr ++ (stepHandle h).1.map (fun e => (h.hid, e))) ++
            (pollHandles t).1)
          = eventsOf h.hid tr ++ (stepHandle h).1 := by
      rw [eventsOf_append, eventsOf_append, eventsOf_tagged_self, htailno,
        List.append_nil]
    refine ⟨?_, ?_⟩
    · intro h' hmem
      rw [pollHandles_cons_registry] at hmem
      rw [pollHandles_cons_events, hassoc]
      cases hr : (stepHandle h).2 with
      | none =>
        rw [hr] at hmem
        exact htail.1 h' hmem
      | some h0 =>
        rw [hr] at hmem
        rcases List.mem_cons.mp hmem with hEq | hmem2
        · subst hEq
          obtain ⟨hhid, hsh⟩ := hstep.1 h' hr
          rw [hhid, hheadproj]
          exact hsh
        · exact htail.1 h' hmem2
    · intro x hx hrem
      rw [pollHandles_cons_registry] at hrem
      rw [pollHandles_cons_events, hassoc]
      rcases List.mem_cons.mp hx with hEq | hx2
      · subst hEq
        cases hr : (stepHandle x).2 with
        | some h0 =>
          rw [hr] at hrem
          exact absurd (stepHandle_hid hr) (hrem h0 (by simp))
        | none =>
          rw [hr] at hrem
          rw [hheadproj]
          exact hstep.2 hr
      · have hsub : ∀ h' ∈ (pollHandles t).2, h'.hid ≠ x.hid := by
          intro h' hh'
          apply hrem
          cases hr : (stepHandle h).2 with
          | some h0 => exact List.mem_cons_of_mem h0 hh'
          | none => exact hh'
        exact htail.2 x hx2 hsub

lemma poll_registry (sup : ProcessSupervisor) :
    (sup.poll).2.1.registry = (pollHandles sup.registry).2 := rfl

lemma poll_nextId (sup : ProcessSupervisor) :
    (sup.poll).2.1.nextId = sup.nextId := rfl

lemma poll_events (sup : ProcessSupervisor) :
    (sup.poll).2.2 = (pollHandles sup.registry).1 := rfl

lemma poll_bool (sup : ProcessSupervisor) :
    (sup.poll).1 = !(pollHandles sup.registry).2.isEmpty := rfl

/-- The supervisor invariant tying the registry to the delivered trace:
registered identities are fresh-bounded and distinct; every registered
handle's trace so far matches its phase's shape; every launched identity
that has left the registry has a complete trace; identities never launched
have an empty trace. -/
structure SupInv (sup : ProcessSupervisor) (tr : List (Nat × Event)) : Prop where
  idsLt : ∀ h ∈ sup.registry, h.hid < sup.nextId
  nodup : (sup.registry.map Handle.hid).Nodup
  shape : ∀ h ∈ sup.registry, HandleShape h (eventsOf h.hid tr)
  complete : ∀ hid, hid < sup.nextId → (∀ h ∈ sup.registry, h.hid ≠ hid) →
    CompleteShape (eventsOf hid tr)
  fresh : ∀ hid, sup.nextId ≤ hid → eventsOf hid tr = []

lemma supInv_empty : SupInv emptySupervisor [] := by
  refine ⟨?_, ?_, ?_, ?_, ?_⟩
  · intro h hmem
    simp [emptySupervisor] at hmem
  · simp [emptySupervisor]
  · intro h hmem
    simp [emptySupervisor] at hmem
  · intro hid hlt
    simp [emptySupervisor] at hlt
  · intro hid _
    rfl

lemma supInv_register {sup : ProcessSupervisor} {tr : List (Nat × Event)}
    (hi : SupInv sup tr) (cfg : ChildConfig) :
    SupInv (registerChild sup cfg) tr := by
  refine ⟨?_, ?_, ?_, ?_, ?_⟩
  · intro h hmem
    rcases (by simpa [registerChild] using hmem :
        h ∈ sup.registry ∨ h = mkHandle sup.nextId cfg) with h1 | h2
    · exact Nat.lt_succ_of_lt (hi.idsLt h h1)
    · subst h2
      simp [registerChild, mkHandle]
  · have hnew : registerChild sup cfg =
        { registry := sup.registry ++ [mkHandle sup.nextId cfg],
          nextId := sup.nextId + 1 } := rfl
    rw [hnew]
    simp only [List.map_append, List.map_cons, List.map_nil]
    rw [List.nodup_append]
    refine ⟨hi.nodup, by simp, ?_⟩
    intro a ha hb
    simp [mkHandle] at hb
    subst hb
    obtain ⟨x, hx, hEq⟩ := List.mem_map.mp ha
    have hlt := hi.idsLt x hx
    rw [hEq] at hlt
    omega
  · intro h hmem
    rcases (by simpa [registerChild] using hmem :
        h ∈ sup.registry ∨ h = mkHandle sup.nextId cfg) with h1 | h2
    · exact hi.shape h h1
    · subst h2
      simp only [HandleShape, mkHandle]
      exact hi.fresh sup.nextId le_rfl
  · intro hid hlt hno
    have hne : hid ≠ sup.nextId := by
      have := hno (mkHandle sup.nextId cfg)
        (by simp [registerChild])
      simpa [mkHandle] using this.symm
    refine hi.complete hid (by
      have : hid < sup.nextId + 1 := hlt
      omega) ?_
    intro h hmem
    exact hno h (by simp [registerChild, hmem])
  · intro hid hge
    exact hi.fresh hid (by
      have : sup.nextId + 1 ≤ hid := hge
      omega)

/-- The trace shape of a handle depends only on its phase. -/
lemma handleShape_congr {h h2 : Handle} (hph : h2.phase = h.phase)
    {es : List Event} (hs : HandleShape h es) : HandleShape h2 es := by
  unfold HandleShape at hs ⊢
  rw [hph]
  exact hs

/-- The invariant survives any registry transformation that changes neither
identities nor phases (termination requests only set the pending flag). -/
lemma supInv_map {sup : ProcessSupervisor} {tr : List (Nat × Event)}
    (hi : SupInv sup tr) (f : Handle → Handle)
    (hf : ∀ h, (f h).hid = h.hid ∧ (f h).phase = h.phase) :
    SupInv { sup with registry := sup.registry.map f } tr := by
  refine ⟨?_, ?_, ?_, ?_, ?_⟩
  · intro h hmem
    simp at hmem
    obtain ⟨a, ha, rfl⟩ := hmem
    rw [(hf a).1]
    exact hi.idsLt a ha
  · have hmm : (sup.registry.map f).map Handle.hid =
        sup.registry.map Handle.hid := by
      rw [List.map_map]
      exact List.map_congr_left (fun a _ => (hf a).1)
    simpa [hmm] using hi.nodup
  · intro h hmem
    simp at hmem
    obtain ⟨a, ha, rfl⟩ := hmem
    rw [(hf a).1]
    exact handleShape_congr (hf a).2 (hi.shape a ha)
  · intro hid hlt hno
    refine hi.complete hid hlt ?_
    intro h hmem
    have := hno (f h) (by
      simp
      exact ⟨h, hmem, rfl⟩)
    rwa [(hf h).1] at this
  · exact hi.fresh

lemma supInv_poll {sup : ProcessSupervisor} {tr : List (Nat × Event)}
    (hi : SupInv sup tr) : SupInv (sup.poll).2.1 (tr ++ (sup.poll).2.2) := by
  have hmain := pollHandles_inv sup.registry tr hi.nodup hi.shape
  have hsub := pollHandles_hid_sublist sup.registry
  refine ⟨?_, ?_, ?_, ?_, ?_⟩
  · intro h hmem
    rw [poll_registry] at hmem
    rw [poll_nextId]
    have hm2 : h.hid ∈ sup.registry.map Handle.hid :=
      hsub.subset (List.mem_map_of_mem Handle.hid hmem)
    obtain ⟨a, ha, hEq⟩ := List.mem_map.mp hm2
    rw [← hEq]
    exact hi.idsLt a ha
  · rw [poll_registry]
    exact hi.nodup.sublist hsub
  · intro h hmem
    rw [poll_registry] at hmem
    rw [poll_events]
    exact hmain.1 h hmem
  · intro hid hlt hno
    rw [poll_nextId] at hlt
    rw [poll_registry] at hno
    rw [poll_events]
    by_cases hmem : ∃ a ∈ sup.registry, a.hid = hid
    · obtain ⟨a, ha, rfl⟩ := hmem
      exact hmain.2 a ha hno
    · push_neg at hmem
      rw [eventsOf_append, pollHandles_events_not_mem sup.registry hid hmem,
        List.append_nil]
      exact hi.complete hid hlt hmem
  · intro hid hge
    rw [poll_nextId] at hge
    rw [poll_events]
    have hno : ∀ h ∈ sup.registry, h.hid ≠ hid := by
      intro h hmem hEq
      have := hi.idsLt h hmem
      omega
    rw [eventsOf_append, pollHandles_events_not_mem sup.registry hid hno,
      List.append_nil]
    exact hi.fresh hid hge

lemma execOp_inv {sup : ProcessSupervisor} {tr : List (Nat × Event)}
    (hi : SupInv sup tr) (op : SupOp) :
    SupInv (execOp sup op).1 (tr ++ (execOp sup op).2) := by
  cases op with
  | runOk cfg => simpa [execOp] using supInv_register hi cfg
  | runFailed msg => simpa [execOp] using hi
  | pollOp => simpa [execOp] using supInv_poll hi
  | terminateAllOp =>
    simpa [execOp, ProcessSupervisor.terminateAll] using
      supInv_map hi Handle.requestTerminate
        (fun h => ⟨rfl, rfl⟩)
  | terminateOneOp hid =>
    simpa [execOp, ProcessSupervisor.terminateOne] using
      supInv_map hi
        (fun h => if h.hid = hid then h.requestTerminate else h)
        (by
          intro h
          by_cases hEq : h.hid = hid <;>
            simp [hEq, Handle.requestTerminate])

lemma execOps_inv :
    ∀ (ops : List SupOp) (sup : ProcessSupervisor) (tr : List (Nat × Event)),
      SupInv sup tr → SupInv (execOps sup ops).1 (tr ++ (execOps sup ops).2)
  | [], sup, tr, hi => by simpa [execOps] using hi
  | op :: ops, sup, tr, hi => by
    have h2 := execOps_inv ops (execOp sup op).1 (tr ++ (execOp sup op).2)
      (execOp_inv hi op)
    simpa [execOps, List.append_assoc] using h2

/-- The invariant holds of every execution from a fresh supervisor. -/
lemma execOps_inv_init (ops : List SupOp) :
    SupInv (execOps emptySupervisor ops).1 (execOps emptySupervisor ops).2 := by
  simpa using execOps_inv ops emptySupervisor [] supInv_empty

/-- Remaining work of one handle: in this model every child's scripted
activity is finite, so each poll step either removes the handle or strictly
decreases this measure (used for termination of the `wait` loop). -/
def handleMeasure (h : Handle) : Nat :=
  if h.terminated then 1
  else
    match h.phase with
    | .starting => 2 * h.steps.length + 4
    | .running => 2 * h.steps.length + 3
    | .erroredWaiting _ => 1

/-- Remaining work of the whole registry. -/
def supMeasure (sup : ProcessSupervisor) : Nat :=
  (sup.registry.map handleMeasure).sum

lemma handleMeasure_pos (h : Handle) : 0 < handleMeasure h := by
  obtain ⟨hid, phase, steps, outcome, cb, cnt, term, pty⟩ := h
  cases term <;> cases phase <;> simp [handleMeasure]

lemma stepHandle_measure {h h' : Handle} (hh : (stepHandle h).2 = some h') :
    handleMeasure h' < handleMeasure h := by
  obtain ⟨hid, phase, steps, outcome, cb, cnt, term, pty⟩ := h
  obtain ⟨hc, hcr, herr⟩ := cb
  cases term
  · cases phase
    · simp [stepHandle] at hh
      subst hh
      simp [handleMeasure]
    · cases steps with
      | nil =>
        cases outcome with
        | exitCode c =>
          cases hc <;> simp [stepHandle] at hh
        | ioError c =>
          cases herr <;> simp [stepHandle] at hh <;> subst hh <;>
            simp [handleMeasure]
      | cons s rest =>
        cases hc
        · simp [stepHandle] at hh
          subst hh
          simp [handleMeasure]
        · simp [stepHandle] at hh
          subst hh
          simp [handleMeasure]
          split <;> omega
    · simp [stepHandle] at hh
  · cases phase <;> simp [stepHandle] at hh

lemma pollHandles_measure :
    ∀ hs : List Handle,
      ((pollHandles hs).2.map handleMeasure).sum ≤
        (hs.map handleMeasure).sum ∧
      (hs ≠ [] → ((pollHandles hs).2.map handleMeasure).sum <
        (hs.map handleMeasure).sum)
  | [] => ⟨le_rfl, by simp⟩
  | h :: t => by
    have iht := pollHandles_measure t
    rw [pollHandles_cons_registry]
    cases hr : (stepHandle h).2 with
    | none =>
      have hle : ((pollHandles t).2.map handleMeasure).sum ≤
          (t.map handleMeasure).sum := iht.1
      have hpos := handleMeasure_pos h
      constructor
      · simp only [List.map_cons, List.sum_cons]
        omega
      · intro _
        simp only [List.map_cons, List.sum_cons]
        omega
    | some h' =>
      have hlt := stepHandle_measure hr
      have hle : ((pollHandles t).2.map handleMeasure).sum ≤
          (t.map handleMeasure).sum := iht.1
      constructor
      · simp only [List.map_cons, List.sum_cons]
        omega
      · intro _
        simp only [List.map_cons, List.sum_cons]
        omega

lemma supMeasure_poll {sup : ProcessSupervisor} (hne : sup.registry ≠ []) :
    supMeasure (sup.poll).2.1 < supMeasure sup := by
  unfold supMeasure
  rw [poll_registry]
  exact (pollHandles_measure sup.registry).2 hne

/-- Modelled from the spec: the loop of `ProcessSupervisor::wait`
(Process.hpp) in discrete time — while the registry is non-empty, sleep
`pollingInterval` (accumulated into `elapsed`), call `poll()`, and repeat;
stop with `true` once the registry is empty, or with `false` once `maxWait`
has elapsed.  A `maxWait` of `none` models boost's not-a-date-time default
(never times out).  Also returns the final supervisor state. -/
def waitFrom (sup : ProcessSupervisor) (pollingInterval : Nat)
    (maxWait : Option Nat) (elapsed : Nat) : Bool × ProcessSupervisor :=
  if hreg : sup.registry.isEmpty then (true, sup)
  else
    match maxWait with
    | some m =>
      if elapsed ≥ m then (false, sup)
      else waitFrom (sup.poll).2.1 pollingInterval maxWait
        (elapsed + pollingInterval)
    | none =>
      waitFrom (sup.poll).2.1 pollingInterval maxWait
        (elapsed + pollingInterval)
termination_by supMeasure sup
decreasing_by
  all_goals exact supMeasure_poll (by simpa using hreg)

/-- `ProcessSupervisor::wait` (Process.hpp): wait for all children to exit,
polling at `pollingInterval`; returns false if the operation timed out. -/
def ProcessSupervisor.wait (sup : ProcessSupervisor) (pollingInterval : Nat)
    (maxWait : Option Nat) : Bool × ProcessSupervisor :=
  waitFrom sup pollingInterval maxWait 0

lemma mem_eventsOf {i : Nat} {e : Event} {tr : List (Nat × Event)}
    (hmem : (i, e) ∈ tr) : e ∈ eventsOf i tr := by
  unfold eventsOf
  exact List.mem_map.mpr ⟨(i, e), List.mem_filter.mpr ⟨hmem, by simp⟩, rfl⟩

lemma eventsOf_mem {i : Nat} {e : Event} {tr : List (Nat × Event)}
    (hmem : e ∈ eventsOf i tr) : (i, e) ∈ tr := by
  unfold eventsOf at hmem
  obtain ⟨⟨j, e2⟩, hp, rfl⟩ := List.mem_map.mp hmem
  obtain ⟨hptr, hbeq⟩ := List.mem_filter.mp hp
  have hj : j = i := by simpa using hbeq
  subst hj
  exact hptr

/-- A complete trace containing the exit event `exited c` has exactly the
claimed form ending in that event. -/
lemma completeShape_mem_exit {es : List Event} (hcs : CompleteShape es)
    {c : Int} (hmem : Event.exited c ∈ es) :
    ∃ body err, es = Event.started :: (body ++ err ++ [Event.exited c]) ∧
      (∀ e ∈ body, isMidEvent e = true) ∧
      (err = [] ∨ err = [Event.errored]) := by
  obtain ⟨body, err, c', hEq, hb, herr⟩ := hcs
  subst hEq
  have hcc : c = c' := by
    rcases List.mem_cons.mp hmem with h1 | h2
    · simp at h1
    · rcases List.mem_append.mp h2 with h3 | h4
      · rcases List.mem_append.mp h3 with h5 | h6
        · have := hb _ h5
          simp [isMidEvent] at this
        · rcases herr with rfl | rfl
          · simp at h6
          · simp at h6
      · simpa using h4
  subst hcc
  exact ⟨body, err, rfl, hb, herr⟩

lemma waitFrom_empty {sup : ProcessSupervisor}
    (h : sup.registry.isEmpty = true) (i : Nat) (mw : Option Nat) (e : Nat) :
    waitFrom sup i mw e = (true, sup) := by
  rw [waitFrom.eq_def]
  simp [h]

lemma waitFrom_timeout {sup : ProcessSupervisor}
    (h : ¬sup.registry.isEmpty = true) {e m : Nat} (ht : e ≥ m) (i : Nat) :
    waitFrom sup i (some m) e = (false, sup) := by
  rw [waitFrom.eq_def]
  simp [h, ht]

lemma waitFrom_step_some {sup : ProcessSupervisor}
    (h : ¬sup.registry.isEmpty = true) {e m : Nat} (ht : ¬e ≥ m) (i : Nat) :
    waitFrom sup i (some m) e = waitFrom (sup.poll).2.1 i (some m) (e + i) := by
  rw [waitFrom.eq_def]
  simp [h, ht]

lemma waitFrom_step_none {sup : ProcessSupervisor}
    (h : ¬sup.registry.isEmpty = true) (i e : Nat) :
    waitFrom sup i none e = waitFrom (sup.poll).2.1 i none (e + i) := by
  rw [waitFrom.eq_def]
  simp [h]

/-- The loop contract of `waitFrom`: the boolean result is true exactly when
the final registry is empty, and with an unbounded `maxWait` the wait never
reports a timeout. -/
lemma waitFrom_spec (sup : ProcessSupervisor) (i : Nat) (mw : Option Nat)
    (e : Nat) :
    ((waitFrom sup i mw e).1 = true ↔
      (waitFrom sup i mw e).2.registry = []) ∧
    (mw = none → (waitFrom sup i mw e).1 = true) := by
  induction sup, i, mw, e using waitFrom.induct with
  | case1 sup i mw e hreg =>
    rw [waitFrom_empty hreg]
    have hempty : sup.registry = [] := by simpa [List.isEmpty_iff] using hreg
    exact ⟨⟨fun _ => hempty, fun _ => rfl⟩, fun _ => rfl⟩
  | case2 sup i e hreg m htime =>
    rw [waitFrom_timeout hreg htime]
    have hne : sup.registry ≠ [] := by
      simpa [List.isEmpty_iff] using hreg
    refine ⟨⟨fun hfalse => ?_, fun hempty => absurd hempty hne⟩,
      fun hnone => Option.noConfusion hnone⟩
    simp at hfalse
  | case3 sup i e hreg m htime ih =>
    rw [waitFrom_step_some hreg htime]
    exact ⟨ih.1, fun hnone => Option.noConfusion hnone⟩
  | case4 sup i e hreg ih =>
    rw [waitFrom_step_none hreg]
    exact ⟨ih.1, fun _ => ih.2 rfl⟩

/-- C1: for a successfully launched child, callbacks are delivered in the
order: `onStarted` exactly once and before anything else, then
`onStdout`/`onStderr`/`onContinue` events, then `onError` if any, and
`onExit` exactly once, after all output delivery and followed by nothing,
regardless of the error path: over any driver history from a fresh
supervisor, the trace projected to any child that received an exit event is
exactly `started`, a block of output/continue events, at most one
`errored`, and the single final `exited` event. -/
theorem c1_callback_order (ops : List SupOp) (hid : Nat) (c : Int)
    (hmem : (hid, Event.exited c) ∈ (execOps emptySupervisor ops).2) :
    ∃ body err,
      eventsOf hid (execOps emptySupervisor ops).2 =
        Event.started :: (body ++ err ++ [Event.exited c]) ∧
      (∀ e ∈ body, isMidEvent e = true) ∧
      (err = [] ∨ err = [Event.errored]) := by
  have hi := execOps_inv_init ops
  have hmemE : Event.exited c ∈ eventsOf hid (execOps emptySupervisor ops).2 :=
    mem_eventsOf hmem
  have hlt : hid < (execOps emptySupervisor ops).1.nextId := by
    by_contra hge
    rw [hi.fresh hid (Nat.le_of_not_lt hge)] at hmemE
    simp at hmemE
  have hnotreg : ∀ h ∈ (execOps emptySupervisor ops).1.registry,
      h.hid ≠ hid := by
    intro h hmemr hEq
    refine handleShape_no_exit (hi.shape h hmemr) c ?_
    rw [hEq]
    exact hmemE
  exact completeShape_mem_exit (hi.complete hid hlt hnotreg) hmemE

/-- A sample run used to instantiate the ordering theorem: one chunk of
standard output, a normal exit with status 0, an `onContinue` handler that
always consents. -/
def c1SampleOps : List SupOp :=
  [SupOp.runOk
    { steps := [{ stdoutChunk := some "a", stderrChunk := none }],
      outcome := Outcome.exitCode 0,
      cb := { hasOnContinue := true, onContinueResults := [],
              hasOnError := false },
      pty := none },
   SupOp.pollOp, SupOp.pollOp, SupOp.pollOp]

theorem c1_callback_order_witness :
    (0, Event.exited 0) ∈ (execOps emptySupervisor c1SampleOps).2 ∧
    ∃ body err,
      eventsOf 0 (execOps emptySupervisor c1SampleOps).2 =
        Event.started :: (body ++ err ++ [Event.exited 0]) ∧
      (∀ e ∈ body, isMidEvent e = true) ∧
      (err = [] ∨ err = [Event.errored]) :=
  ⟨by decide, c1_callback_order c1SampleOps 0 0 (by decide)⟩

/-- C2: a run call whose OS process creation fails returns the launch error
synchronously, registers no handle, and never fires a callback for that
call: both `runProgram` and `runCommand` return `.error` leaving the
supervisor value untouched, and a failed run in a driver history is
indistinguishable — in final state and in the whole delivered trace — from
the history without it. -/
theorem c2_launch_failure (sup : ProcessSupervisor) (executable command : String)
    (args : List String) (cfg : ChildConfig) (msg : String) :
    sup.runProgram executable args cfg (LaunchResult.failed msg) =
      Except.error msg ∧
    sup.runCommand command cfg (LaunchResult.failed msg) = Except.error msg ∧
    (∀ ops : List SupOp,
      execOps sup (SupOp.runFailed msg :: ops) = execOps sup ops) := by
  refine ⟨rfl, rfl, ?_⟩
  intro ops
  simp [execOps, execOp]

/-- C3: `hasRunningChildren()` is true iff the registry is non-empty, which
holds iff some launched child has not yet delivered its `onExit`; the query
is a pure function of the supervisor value (it can change no state by
construction). -/
theorem c3_has_running_children (ops : List SupOp) :
    ((execOps emptySupervisor ops).1.hasRunningChildren = true ↔
      (execOps emptySupervisor ops).1.registry ≠ []) ∧
    ((execOps emptySupervisor ops).1.registry ≠ [] ↔
      ∃ hid, hid < (execOps emptySupervisor ops).1.nextId ∧
        ∀ c : Int, (hid, Event.exited c) ∉ (execOps emptySupervisor ops).2) := by
  have hi := execOps_inv_init ops
  constructor
  · simp [ProcessSupervisor.hasRunningChildren, List.isEmpty_iff]
  · constructor
    · intro hne
      obtain ⟨h, hmem⟩ := List.exists_mem_of_ne_nil _ hne
      refine ⟨h.hid, hi.idsLt h hmem, ?_⟩
      intro c hc
      exact handleShape_no_exit (hi.shape h hmem) c (mem_eventsOf hc)
    · rintro ⟨hid, hlt, hno⟩ hempty
      have hcomp := hi.complete hid hlt (by simp [hempty])
      obtain ⟨c, hcmem⟩ := completeShape_has_exit hcomp
      exact hno c (eventsOf_mem hcmem)

/-- C4: `poll()` returns true iff at least one handle remains registered
after the poll step; called on an empty registry it returns false, changes
nothing, and delivers no callback. -/
theorem c4_poll_contract (sup : ProcessSupervisor) :
    ((sup.poll).1 = true ↔ (sup.poll).2.1.registry ≠ []) ∧
    (sup.registry = [] → sup.poll = (false, sup, [])) := by
  constructor
  · rw [poll_bool, poll_registry]
    simp [List.isEmpty_iff]
  · intro hempty
    obtain ⟨reg, nid⟩ := sup
    simp only at hempty
    subst hempty
    rfl

theorem c4_poll_contract_witness :
    emptySupervisor.poll = (false, emptySupervisor, []) :=
  (c4_poll_contract emptySupervisor).2 rfl

/-- C5: `wait(pollingInterval, maxWait)` repeatedly sleeps the polling
interval and polls until the registry is empty or `maxWait` elapses (a
`maxWait` of `none`, boost's not-a-date-time, never times out); it returns
true iff the registry became empty, and on a false (timeout) return the
undrained handles are still registered in the returned state. -/
theorem c5_wait_contract (sup : ProcessSupervisor) (pollingInterval : Nat)
    (maxWait : Option Nat) :
    ((sup.wait pollingInterval maxWait).1 = true ↔
      (sup.wait pollingInterval maxWait).2.registry = []) ∧
    (maxWait = none → (sup.wait pollingInterval maxWait).1 = true) ∧
    ((sup.wait pollingInterval maxWait).1 = false →
      (sup.wait pollingInterval maxWait).2.registry ≠ []) := by
  unfold ProcessSupervisor.wait
  have hs := waitFrom_spec sup pollingInterval maxWait 0
  refine ⟨hs.1, hs.2, ?_⟩
  intro hfalse hempty
  have htrue := hs.1.mpr hempty
  rw [hfalse] at htrue
  exact Bool.noConfusion htrue

theorem c5_wait_contract_witness :
    (emptySupervisor.wait 10 none).1 = true :=
  (c5_wait_contract emptySupervisor 10 none).2.1 rfl

/-- C6: for a running child with no `onError` handler, an I/O error while
reading its streams triggers the default policy — the error is logged (not
a callback) and `terminate()` is called — and the handle is driven to the
exited state with `onExit` receiving exit status 15 on the following
poll. -/
theorem c6_default_error_policy (h : Handle) (c : Int)
    (hph : h.phase = HPhase.running) (hsteps : h.steps = [])
    (hout : h.outcome = Outcome.ioError c) (herr : h.cb.hasOnError = false)
    (hterm : h.terminated = false) :
    stepHandle h = ([], some { h with terminated := true }) ∧
    stepHandle { h with terminated := true } = ([Event.exited 15], none) := by
  constructor <;> simp [stepHandle, hph, hsteps, hout, herr, hterm]

/-- A running child about to hit an I/O error with no `onError` handler. -/
def c6Sample : Handle :=
  { hid := 0, phase := HPhase.running, steps := [],
    outcome := Outcome.ioError 1,
    cb := { hasOnContinue := false, onContinueResults := [],
            hasOnError := false },
    contCount := 0, terminated := false, pty := none }

theorem c6_default_error_policy_witness :
    stepHandle c6Sample = ([], some { c6Sample with terminated := true }) ∧
    stepHandle { c6Sample with terminated := true } =
      ([Event.exited 15], none) :=
  c6_default_error_policy c6Sample 1 rfl rfl rfl rfl rfl

/-- C7: when `onContinue` returns false during a poll step of a running
child, the supervisor calls `terminate()` internally, and the child is
driven to exit with the supervisor-initiated termination status 15 on the
following poll. -/
theorem c7_onContinue_false_terminates (h : Handle) (s : StepData)
    (rest : List StepData)
    (hph : h.phase = HPhase.running) (hsteps : h.steps = s :: rest)
    (hcont : h.cb.hasOnContinue = true)
    (hres : h.cb.onContinueResults.getD h.contCount true = false)
    (hterm : h.terminated = false) :
    stepHandle h =
      (stepOutputEvents s ++ [Event.continued false],
       some { h with steps := rest, contCount := h.contCount + 1,
                     terminated := true }) ∧
    stepHandle { h with steps := rest, contCount := h.contCount + 1,
                        terminated := true } = ([Event.exited 15], none) := by
  have hres2 : h.cb.onContinueResults[h.contCount]?.getD true = false := by
    simpa using hres
  constructor <;> simp [stepHandle, hph, hsteps, hcont, hres2, hterm]

/-- The (empty) poll-step stream data used by the `onContinue` sample. -/
def c7Step : StepData := { stdoutChunk := none, stderrChunk := none }

/-- A running child whose `onContinue` handler refuses to continue. -/
def c7Sample : Handle :=
  { hid := 0, phase := HPhase.running, steps := [c7Step],
    outcome := Outcome.exitCode 0,
    cb := { hasOnContinue := true, onContinueResults := [false],
            hasOnError := false },
    contCount := 0, terminated := false, pty := none }

/-- The sample child right after its refused `onContinue`: stream consumed,
invocation counted, termination pending. -/
def c7SampleAfter : Handle :=
  { hid := 0, phase := HPhase.running, steps := [],
    outcome := Outcome.exitCode 0,
    cb := { hasOnContinue := true, onContinueResults := [false],
            hasOnError := false },
    contCount := 1, terminated := true, pty := none }

theorem c7_onContinue_false_terminates_witness :
    stepHandle c7Sample =
      (stepOutputEvents c7Step ++ [Event.continued false],
        some c7SampleAfter) ∧
    stepHandle c7SampleAfter = ([Event.exited 15], none) :=
  c7_onContinue_false_terminates c7Sample c7Step [] rfl rfl rfl rfl rfl

/-- C8: on a child started without a pseudoterminal, `ptySetSize` and
`ptyInterrupt` return the unsupported-operation error and change nothing;
on a child started with `ProcessOptions::pseudoterminal`, both succeed
(`ptySetSize` resizing the terminal). -/
theorem c8_pty_operations (h : Handle) (cols rows : Int) :
    (h.pty = none →
      h.ptySetSize cols rows = Except.error OpError.unsupportedOperation ∧
      h.ptyInterrupt = Except.error OpError.unsupportedOperation) ∧
    (∀ pt : Pseudoterminal, h.pty = some pt →
      h.ptySetSize cols rows =
        Except.ok { h with pty := some { cols := cols, rows := rows } } ∧
      h.ptyInterrupt = Except.ok ()) := by
  constructor
  · intro hnone
    constructor <;> simp [Handle.ptySetSize, Handle.ptyInterrupt, hnone]
  · intro pt hsome
    constructor <;> simp [Handle.ptySetSize, Handle.ptyInterrupt, hsome]

end Proc

namespace Js

/-- Modelled from the spec: a JSON value (core/json/Json.hpp is outside the
excerpt) — the parts of the JSON data model that launch profiles and client
events use: strings, booleans, numbers, arrays and objects. -/
inductive JValue where
  | str (s : String)
  | boolean (b : Bool)
  | num (n : Int)
  | arr (elems : List JValue)
  | obj (fields : List (String × JValue))

end Js

namespace RUtil

/-- Modelled from the spec: `ProcessConfig` (core/system/PosixSystem.hpp is
outside the excerpt) — the process-configuration fields consumed by process
creation named by the spec: the environment mapping, the working directory,
and the boolean flags. -/
structure ProcessConfig where
  environment : List (String × String)
  workingDir : String
  terminateChildren : Bool
  detachSession : Bool
  redirectStdErrToStdOut : Bool
deriving DecidableEq, Repr

/-- `struct SessionLaunchProfile` (RSessionLaunchProfile.hpp): username,
executable path, and the nested process configuration. -/
structure SessionLaunchProfile where
  username : String
  executablePath : String
  config : ProcessConfig
deriving DecidableEq, Repr

/-- Encoding of the environment mapping as a JSON array of
name/value objects. -/
def envToJson (env : List (String × String)) : Js.JValue :=
  Js.JValue.arr (env.map fun kv =>
    Js.JValue.obj [("name", Js.JValue.str kv.1),
                   ("value", Js.JValue.str kv.2)])

/-- A string field read from an optional JSON value (empty on absence or
type mismatch). -/
def asString : Option Js.JValue → String
  | some (Js.JValue.str s) => s
  | _ => ""

/-- A boolean field read from an optional JSON value (false on absence or
type mismatch). -/
def asBool : Option Js.JValue → Bool
  | some (Js.JValue.boolean b) => b
  | _ => false

/-- One environment entry decoded from its name/value JSON object. -/
def envEntryFromJson : Js.JValue → String × String
  | Js.JValue.obj fields =>
    (asString (fields.lookup "name"), asString (fields.lookup "value"))
  | _ => ("", "")

/-- The environment mapping decoded from its JSON array. -/
def envFromJson : Option Js.JValue → List (String × String)
  | some (Js.JValue.arr elems) => elems.map envEntryFromJson
  | _ => []

/-- The defaulted process configuration used when a config object is
missing or malformed. -/
def defaultConfig : ProcessConfig :=
  { environment := [], workingDir := "", terminateChildren := false,
    detachSession := false, redirectStdErrToStdOut := false }

/-- Modelled from the spec: encoding of the nested process-configuration
object. -/
def configToJson (c : ProcessConfig) : Js.JValue :=
  Js.JValue.obj
    [("environment", envToJson c.environment),
     ("workingDir", Js.JValue.str c.workingDir),
     ("terminateChildren", Js.JValue.boolean c.terminateChildren),
     ("detachSession", Js.JValue.boolean c.detachSession),
     ("redirectStdErrToStdOut", Js.JValue.boolean c.redirectStdErrToStdOut)]

/-- Modelled from the spec: decoding of the nested process-configuration
object. -/
def configFromJson : Option Js.JValue → ProcessConfig
  | some (Js.JValue.obj fields) =>
    { environment := envFromJson (fields.lookup "environment"),
      workingDir := asString (fields.lookup "workingDir"),
      terminateChildren := asBool (fields.lookup "terminateChildren"),
      detachSession := asBool (fields.lookup "detachSession"),
      redirectStdErrToStdOut :=
        asBool (fields.lookup "redirectStdErrToStdOut") }
  | _ => defaultConfig

/-- Modelled from the spec: `sessionLaunchProfileToJson`
(RSessionLaunchProfile.hpp; the implementation file is outside the
excerpt) — an object carrying the username, the executable path, and the
nested process-configuration object. -/
def sessionLaunchProfileToJson (p : SessionLaunchProfile) : Js.JValue :=
  Js.JValue.obj
    [("username", Js.JValue.str p.username),
     ("executablePath", Js.JValue.str p.executablePath),
     ("config", configToJson p.config)]

/-- Modelled from the spec: `sessionLaunchProfileFromJson`
(RSessionLaunchProfile.hpp). -/
def sessionLaunchProfileFromJson (v : Js.JValue) : SessionLaunchProfile :=
  match v with
  | Js.JValue.obj fields =>
    { username := asString (fields.lookup "username"),
      executablePath := asString (fields.lookup "executablePath"),
      config := configFromJson (fields.lookup "config") }
  | _ => { username := "", executablePath := "", config := defaultConfig }

lemma env_roundtrip : ∀ env : List (String × String),
    envFromJson (some (envToJson env)) = env := by
  intro env
  induction env with
  | nil => rfl
  | cons kv t ih =>
    have hhead : envEntryFromJson (Js.JValue.obj
        [("name", Js.JValue.str kv.1), ("value", Js.JValue.str kv.2)]) =
          kv := rfl
    simp only [envToJson, envFromJson, List.map_cons, List.map_map] at ih ⊢
    rw [hhead]
    exact congrArg (kv :: ·) ih

/-- C9: encoding a session launch profile to JSON and decoding it back
yields a profile equal to the original in username, executable path, and
every process-configuration field consumed by process creation: the
environment mapping, the working directory and the boolean flags. -/
theorem c9_launch_profile_roundtrip (p : SessionLaunchProfile) :
    (sessionLaunchProfileFromJson (sessionLaunchProfileToJson p)).username =
      p.username ∧
    (sessionLaunchProfileFromJson
        (sessionLaunchProfileToJson p)).executablePath = p.executablePath ∧
    (sessionLaunchProfileFromJson
        (sessionLaunchProfileToJson p)).config.environment =
      p.config.environment ∧
    (sessionLaunchProfileFromJson
        (sessionLaunchProfileToJson p)).config.workingDir =
      p.config.workingDir ∧
    (sessionLaunchProfileFromJson
        (sessionLaunchProfileToJson p)).config.terminateChildren =
      p.config.terminateChildren ∧
    (sessionLaunchProfileFromJson
        (sessionLaunchProfileToJson p)).config.detachSession =
      p.config.detachSession ∧
    (sessionLaunchProfileFromJson
        (sessionLaunchProfileToJson p)).config.redirectStdErrToStdOut =
      p.config.redirectStdErrToStdOut := by
  obtain ⟨u, ep, env, wd, tc, ds, rs⟩ := p
  refine ⟨rfl, rfl, ?_, rfl, rfl, rfl, rfl⟩
  exact env_roundtrip env

end RUtil

namespace ShinyViewer

/-- An R value (SEXP) as the viewer module observes it: nil, a character
vector, or some other value. -/
inductive SEXPv where
  | rNil
  | strVec (ss : List String)
  | other

/-- `r::sexp::isString`. -/
def isString : SEXPv → Bool
  | SEXPv.strVec _ => true
  | _ => false

/-- `r::sexp::length` as the validation uses it: the length of a character
vector (nil has length 0; a non-vector scalar, length 1). -/
def sexpLength : SEXPv → Nat
  | SEXPv.strVec ss => ss.length
  | SEXPv.rNil => 0
  | SEXPv.other => 1

/-- `r::sexp::safeAsString`: the first element of a character vector, empty
otherwise. -/
def safeAsString : SEXPv → String
  | SEXPv.strVec (s :: _) => s
  | _ => ""

/-- Client event types; `client_events::kShinyViewer` is the one this
module enqueues. -/
inductive ClientEventType where
  | shinyViewer

/-- A client event: its type and its JSON payload
(`ClientEvent(client_events::kShinyViewer, dataJson)`). -/
structure ClientEvent where
  etype : ClientEventType
  data : Js.JValue

/-- The module's viewer state: the globals `s_currentAppUrl` and
`s_currentAppPath` of SessionShinyViewer.cpp. -/
structure ViewerState where
  currentAppUrl : String
  currentAppPath : String

/-- `loadApp` (SessionShinyViewer.cpp): records the url and path in the
module state, then enqueues one ShinyViewer client event whose payload
carries that url, that path, and state "started". -/
def loadApp (url path : String) (st : ViewerState) (q : List ClientEvent) :
    ViewerState × List ClientEvent :=
  let st2 : ViewerState := { currentAppUrl := url, currentAppPath := path }
  (st2,
   q ++ [{ etype := ClientEventType.shinyViewer,
           data := Js.JValue.obj
             [("url", Js.JValue.str st2.currentAppUrl),
              ("path", Js.JValue.str st2.currentAppPath),
              ("state", Js.JValue.str "started")] }])

/-- `rs_shinyviewer` (SessionShinyViewer.cpp): validates that each argument
is a single-element character vector — otherwise an R error is signalled
(the thrown RErrorException's message, reported through `r::exec::error`)
and nothing else happens — then loads the app; `R_NilValue` is returned on
every path.  Result: (returned SEXP, new state, new event queue, signalled
error message if any). -/
def rs_shinyviewer (urlSEXP pathSEXP : SEXPv) (st : ViewerState)
    (q : List ClientEvent) :
    SEXPv × ViewerState × List ClientEvent × Option String :=
  if !isString urlSEXP || sexpLength urlSEXP != 1 then
    (SEXPv.rNil, st, q,
     some "url must be a single element character vector.")
  else if !isString pathSEXP || sexpLength pathSEXP != 1 then
    (SEXPv.rNil, st, q,
     some "path must be a single element character vector.")
  else
    let pr := loadApp (safeAsString urlSEXP) (safeAsString pathSEXP) st q
    (SEXPv.rNil, pr.1, pr.2, none)

/-- C10: `rs_shinyviewer(url, path)` returns `R_NilValue` on every path; if
either argument is not a single-element character vector an R error is
signalled with the viewer state and the client event queue left untouched;
if both are valid, the state becomes exactly (url, path) and exactly one
ShinyViewer client event carrying that url, that path and state "started"
is appended to the queue, with no error. -/
theorem c10_rs_shinyviewer (urlSEXP pathSEXP : SEXPv) (st : ViewerState)
    (q : List ClientEvent) :
    (rs_shinyviewer urlSEXP pathSEXP st q).1 = SEXPv.rNil ∧
    ((!isString urlSEXP || sexpLength urlSEXP != 1 ||
        !isString pathSEXP || sexpLength pathSEXP != 1) = true →
      (rs_shinyviewer urlSEXP pathSEXP st q).2.1 = st ∧
      (rs_shinyviewer urlSEXP pathSEXP st q).2.2.1 = q ∧
      ((rs_shinyviewer urlSEXP pathSEXP st q).2.2.2).isSome = true) ∧
    (∀ u p, urlSEXP = SEXPv.strVec [u] → pathSEXP = SEXPv.strVec [p] →
      (rs_shinyviewer urlSEXP pathSEXP st q).2.1 =
        { currentAppUrl := u, currentAppPath := p } ∧
      (rs_shinyviewer urlSEXP pathSEXP st q).2.2.1 =
        q ++ [{ etype := ClientEventType.shinyViewer,
                data := Js.JValue.obj
                  [("url", Js.JValue.str u), ("path", Js.JValue.str p),
                   ("state", Js.JValue.str "started")] }] ∧
      (rs_shinyviewer urlSEXP pathSEXP st q).2.2.2 = none) := by
  refine ⟨?_, ?_, ?_⟩
  · cases hu : (!isString urlSEXP || sexpLength urlSEXP != 1) <;>
      cases hp : (!isString pathSEXP || sexpLength pathSEXP != 1) <;>
      simp [rs_shinyviewer, hu, hp]
  · intro hcond
    cases hu : (!isString urlSEXP || sexpLength urlSEXP != 1)
    · cases hp : (!isString pathSEXP || sexpLength pathSEXP != 1)
      · simp [hu, hp] at hcond
      · simp [rs_shinyviewer, hu, hp]
    · simp [rs_shinyviewer, hu]
  · intro u p hu' hp'
    subst hu'
    subst hp'
    simp [rs_shinyviewer, loadApp, isString, sexpLength, safeAsString]

end ShinyViewer
